import Mathlib

/-!
# Verification of the Mephisto-ParlAI empathic-conversations orchestrator

Shallow embedding of the session orchestration engine of the
Mephisto-ParlAI repository:

* `custom_tasks/empathic_conversations/chat_world.py` (the "underscore"
  variant, with `MIN_TURNS` and goodbye detection) — `MultiAgentDialogWorld`
  (`__init__`, `parley`, `episode_done`, `shutdown`) and `make_world`;
* `custom_tasks/empathic-conversations/chat_world.py` (the "hyphen"
  variant) — its `make_world` handshake;
* `parlai/agents/_custom/remote.py` — `RemoteAgent` (`observe` inherited
  from `parlai.core.agents.Agent`, `act`, `ws_send`, `ws_recv`).

Database writes, YAML configuration and the Mephisto platform lifecycle are
external collaborators; following the code, they appear only as abstract
events (`Event.db`) in the traces produced by the embedded operations.
-/

namespace Mephisto

/-- The ASCII fragment of the character class matched by the regex
escape `\s` in Python (`re` module, default Unicode semantics restricted
to ASCII): space, tab, newline, carriage return, vertical tab, form feed.
Used by the goodbye pattern of `MultiAgentDialogWorld.parley`. -/
def pyIsSpace (c : Char) : Bool :=
  c = ' ' || c = '\t' || c = '\n' || c = '\r' || c = '\x0b' || c = '\x0c'

/-- The character class `[.!]` of the goodbye regex in
`MultiAgentDialogWorld.parley`. -/
def isByeMark (c : Char) : Bool :=
  c = '.' || c = '!'

/-- One-character case-insensitive match, the effect of the `(?i: )` group
of the goodbye regex on a single letter. -/
def charCaseEq (c lower upper : Char) : Bool :=
  c = lower || c = upper

/-- `re.match(r'^\s*(?i:bye)[.!]*\s*$', s)` from
`MultiAgentDialogWorld.parley` of the underscore variant, as a Boolean
predicate: the string is whitespace, then the word "bye" in any casing,
then zero or more `.` or `!` characters, then whitespace, and nothing
else.  Since no later alternative can consume `.`/`!` once `\s*$` starts,
maximal-munch `dropWhile` passes recognise exactly the regex language. -/
def saidBye (s : String) : Bool :=
  match s.data.dropWhile pyIsSpace with
  | b :: y :: e :: rest =>
    charCaseEq b 'b' 'B' && charCaseEq y 'y' 'Y' && charCaseEq e 'e' 'E' &&
      ((rest.dropWhile isByeMark).dropWhile pyIsSpace).isEmpty
  | _ => false

/-- A common ASCII punctuation mark.  Supports the spec-side reading of
the word "punctuation" in the goodbye-pattern description. -/
def isPunctuationChar (c : Char) : Bool :=
  c = '.' || c = '!' || c = ',' || c = '?' || c = ';' || c = ':'

/-- Modelled from the spec: the goodbye pattern as the spec describes it
in words — "the word \"bye\" (case-insensitive) optionally followed by
punctuation, with optional surrounding whitespace and nothing else" —
with "punctuation" read as common ASCII punctuation marks rather than the
literal character class of the source regex.  Used only to compare the
spec's description against the source predicate `saidBye`. -/
def specGoodbye (s : String) : Bool :=
  match s.data.dropWhile pyIsSpace with
  | b :: y :: e :: rest =>
    charCaseEq b 'b' 'B' && charCaseEq y 'y' 'Y' && charCaseEq e 'e' 'E' &&
      ((rest.dropWhile isPunctuationChar).dropWhile pyIsSpace).isEmpty
  | _ => false

/-! ## Data model of the session controller (`MultiAgentDialogWorld`) -/

/-- The `task_data` dictionary attached by `parley` via `force_set` when
`send_task_data` is enabled. -/
structure TaskData where
  lastActingAgent : String
  currentDialogueTurn : Nat
  utteranceCount : Nat
  deriving DecidableEq, Repr

/-- A turn record (ParlAI `Message`): the fields of an act that the
orchestrator reads or writes — speaker id, text payload, episode-done
flag and the optional `task_data` side channel. -/
structure Msg where
  id : String
  text : String
  episodeDone : Bool
  taskData : Option TaskData
  deriving DecidableEq, Repr

/-- A participant handle as the controller distinguishes them: a local
Mephisto (human-backed) agent, whose `act` accepts a `timeout` keyword,
or a `RemoteAgent` bridge, whose `act` does not (calling it with
`timeout` raises `TypeError`, caught by `parley`). -/
inductive WAgent where
  | human (name : String)
  | remote (name : String)
  deriving DecidableEq, Repr

/-- Whether a participant handle is the remote bridge
(`isinstance(agent, RemoteAgent)` in the source). -/
def WAgent.isRemote : WAgent → Bool
  | .human _ => false
  | .remote _ => true

/-- The externally visible effects of one session operation, in order:
an agent acting, an utterance row sent to the persistence sink
(`add_utterance_db`), a relay (`receiver` observes `actor`'s act), the
end-of-session signal to a remote participant (`[DONE]` plus one
discarded acknowledgement act) or to a local one (the completion-code
message). -/
inductive Event where
  | act (idx : Nat)
  | db (idx : Nat) (text : String)
  | observe (receiver actor : Nat)
  | doneRemote (idx : Nat)
  | doneLocal (idx : Nat)
  deriving DecidableEq, Repr

/-- Session state: the fields of `MultiAgentDialogWorld` that the
orchestration loop reads or writes.  `acts` is the last-acts buffer
(`self.acts`), one `Option` slot per participant with `none` as the
`None` sentinel. -/
structure WorldState where
  agents : List WAgent
  acts : List (Option Msg)
  episodeDone : Bool
  maxTurns : Nat
  minTurns : Nat
  currentTurns : Nat
  sendTaskData : Bool
  deriving DecidableEq, Repr

/-- Configuration limits read from `project_credentials` / `opt` by
`MultiAgentDialogWorld.__init__`. -/
structure Config where
  maxTurns : Nat
  minTurns : Nat
  sendTaskData : Bool
  deriving DecidableEq, Repr

/-- `MultiAgentDialogWorld.__init__` (underscore variant), restricted to
session state: the last-acts buffer starts as `[None] * len(agents)`,
the done flag as `False`, the turn counter at `0`; limits come from the
configuration.  Database registration is an external effect with no
bearing on session state. -/
def initWorld (agents : List WAgent) (cfg : Config) : WorldState :=
  { agents := agents
    acts := List.replicate agents.length none
    episodeDone := false
    maxTurns := cfg.maxTurns
    minTurns := cfg.minTurns
    currentTurns := 0
    sendTaskData := cfg.sendTaskData }

/-- The `agent_id` assigned to the participant at position `idx` by
`__init__`: `f"Chat Agent {idx + 1}"`. -/
def chatAgentId (idx : Nat) : String :=
  "Chat Agent " ++ toString (idx + 1)

/-- The body of the `try` branch of `parley` for one agent: the act of a
local agent (whose bounded-wait `act` succeeded) is enriched with
`task_data` when `send_task_data` is set; a remote agent's bounded call
raises `TypeError`, so its act comes from the plain fallback `act()` and
is never enriched. -/
def processAgent (sendTD : Bool) (turns idx : Nat) : WAgent → Msg → Msg
  | .human _, m =>
    if sendTD then
      { m with taskData := some ⟨chatAgentId idx, turns, turns + idx⟩ }
    else m
  | .remote _, m => m

/-- The relay loop `for other_agent in self.agents: if other_agent !=
agent: other_agent.observe(...)`: the acting agent at `idx` is observed
by every other position, in participant order.  (The agent handles are
distinct objects, so Python `!=` coincides with position inequality.) -/
def relayEvents (n idx : Nat) : List Event :=
  ((List.range n).filter (fun j => j != idx)).map (fun j => Event.observe j idx)

/-- The events of one agent's turn inside `parley`: it acts, its
utterance text goes to the persistence sink, then the act is relayed to
every other participant — all before the next agent's turn. -/
def agentBlock (n idx : Nat) (m : Msg) : List Event :=
  Event.act idx :: Event.db idx m.text :: relayEvents n idx

/-- Result of the per-agent loop of `parley`: the processed acts (the
new last-acts buffer contents), the per-agent goodbye-match list
(`agents_said_bye`), whether any act carried `episode_done`, and the
event trace. -/
structure RoundOutcome where
  acts : List Msg
  byes : List Bool
  anyActDone : Bool
  events : List Event
  deriving DecidableEq, Repr

/-- The `for index, agent in enumerate(self.agents)` loop of `parley`
(underscore variant), over the zipped list of agent handles and the
messages their acts return this round, starting at position `idx`. -/
def parleyLoop (sendTD : Bool) (turns n : Nat) : Nat → List (WAgent × Msg) → RoundOutcome
  | _, [] => ⟨[], [], false, []⟩
  | idx, (a, m) :: rest =>
    let o := parleyLoop sendTD turns n (idx + 1) rest
    ⟨processAgent sendTD turns idx a m :: o.acts,
     saidBye m.text :: o.byes,
     m.episodeDone || o.anyActDone,
     agentBlock n idx m ++ o.events⟩

/-- The end-of-round condition of `parley`, written with the source's
operator arrangement: `self.current_turns >= self.max_turns or
all(agents_said_bye) and self.current_turns >= self.min_turns` (in both
Python and Lean, `&&` binds tighter than `||`). -/
def endOfRoundCond (turns maxT minT : Nat) (byes : List Bool) : Bool :=
  decide (maxT ≤ turns) || byes.all id && decide (minT ≤ turns)

/-- The end-of-session notifications sent inside the `if` at the end of
`parley`: each remote participant gets `{"text": "[DONE]"}` plus one
discarded acknowledgement act, each local participant the
completion-code message. -/
def doneEvents : Nat → List WAgent → List Event
  | _, [] => []
  | idx, a :: rest =>
    (if a.isRemote then Event.doneRemote idx else Event.doneLocal idx)
      :: doneEvents (idx + 1) rest

/-- `MultiAgentDialogWorld.parley` (underscore variant).  `replies` is
the message each participant's act returns this round, in participant
order.  Returns the updated session state and the event trace of the
round. -/
def parley (st : WorldState) (replies : List Msg) : WorldState × List Event :=
  let turns := st.currentTurns + 1
  let o := parleyLoop st.sendTaskData turns st.agents.length 0 (st.agents.zip replies)
  let cond := endOfRoundCond turns st.maxTurns st.minTurns o.byes
  ({ st with
      currentTurns := turns
      acts := o.acts.map some
      episodeDone := st.episodeDone || o.anyActDone || cond },
   o.events ++ (if cond then doneEvents 0 st.agents else []))

/-- `MultiAgentDialogWorld.episode_done`. -/
def episode_done (st : WorldState) : Bool :=
  st.episodeDone

/-! ## Remote bridge (`parlai/agents/_custom/remote.py`) -/

/-- One JSON message from the remote websocket server, as far as the
bridge reads it: the `text` payload (`ws_recv` overwrites any `role`,
and `act` overwrites any `id` / `episode_done` the server sent). -/
structure Reply where
  text : String
  deriving DecidableEq, Repr

/-- One JSON message the bridge writes to the socket:
`{"role": "User", "text": text}` (`ws_send`). -/
structure WireMsg where
  role : String
  text : String
  deriving DecidableEq, Repr

/-- The record `RemoteAgent.act` returns: the placeholder carries no
`role` key, a received reply carries `role = "Bot"` from `ws_recv`;
both carry the bridge's `id` and `episode_done`. -/
structure TurnRecord where
  role : Option String
  id : String
  text : String
  episodeDone : Bool
  deriving DecidableEq, Repr

/-- `RemoteAgent` state over a connected socket: its id (`getID()`),
the observation stored by the inherited `Agent.observe` (only its
`text` is ever read), the pending server replies (socket receive
buffer) and the wire log of sent messages. -/
structure BridgeState where
  botId : String
  observation : Option String
  inbox : List Reply
  sent : List WireMsg
  deriving DecidableEq, Repr

/-- A freshly connected bridge (`ws_start` succeeded): nothing observed,
nothing sent, the server will answer with `inbox`. -/
def freshBridge (botId : String) (inbox : List Reply) : BridgeState :=
  ⟨botId, none, inbox, []⟩

/-- `Agent.observe` (inherited, not overridden by `RemoteAgent`):
stores the observation; nothing touches the socket here. -/
def remote_observe (b : BridgeState) (text : String) : BridgeState :=
  { b with observation := some text }

/-- `RemoteAgent.act`: with no stored observation, return the
placeholder record without touching the socket; otherwise `ws_send` the
stored observation's text as `{"role": "User", ...}`, block on
`ws_recv` for one reply (`none` models a blocking read that never
returns), tag it with `role = "Bot"`, the bridge's id and
`episode_done = False`.  The stored observation is not cleared. -/
def remote_act (b : BridgeState) : Option (TurnRecord × BridgeState) :=
  match b.observation with
  | none => some (⟨none, b.botId, "Nothing to reply to yet", false⟩, b)
  | some obsText =>
    match b.inbox with
    | [] => none
    | r :: rest =>
      some (⟨some "Bot", b.botId, r.text, false⟩,
            { b with inbox := rest, sent := b.sent ++ [⟨"User", obsText⟩] })

/-- The handshake of `make_world` in the underscore variant
(`empathic_conversations`): `bot.observe({"text": "dummy"}); _ =
bot.act(); bot.observe({"text": "begin"})` — there is no second
`act()`. -/
def handshakeUnderscore (b : BridgeState) : Option BridgeState :=
  match remote_act (remote_observe b "dummy") with
  | none => none
  | some (_, b2) => some (remote_observe b2 "begin")

/-- The handshake of `make_world` in the hyphen variant
(`empathic-conversations`): `observe dummy; act; observe begin; act`,
both replies discarded. -/
def handshakeHyphen (b : BridgeState) : Option BridgeState :=
  match remote_act (remote_observe b "dummy") with
  | none => none
  | some (_, b2) =>
    match remote_act (remote_observe b2 "begin") with
    | none => none
    | some (_, b3) => some b3

/-! ## `make_world` (underscore variant) -/

/-- Result of `make_world`: the constructed session state, and the
remote bridge's state when a bot was created (one human) or `none`
(two humans). -/
structure MadeWorld where
  world : WorldState
  bridge : Option BridgeState
  deriving DecidableEq, Repr

/-- `make_world` of the underscore variant.  `humans` are the worker
agents handed in; `botName`/`inbox` describe the remote server a bot
bridge would connect to.  With a bad participant count it raises before
any session state, database row or handshake exists; with two humans it
swaps their order (the most recent joiner talks first) and builds the
world; with one human it connects a `RemoteAgent`, runs the handshake
and inserts the bot at position 0. -/
def make_world (cfg : Config) (humans : List String) (botName : String)
    (inbox : List Reply) : Except String MadeWorld :=
  if humans.length < 1 || humans.length > 2 then
    .error "There should only ever be one or two agents in this list."
  else if humans.length == 2 then
    .ok ⟨initWorld (humans.reverse.map WAgent.human) cfg, none⟩
  else
    match handshakeUnderscore (freshBridge botName inbox) with
    | none => .error "blocked on handshake receive"
    | some b =>
      .ok ⟨initWorld (WAgent.remote botName :: humans.map WAgent.human) cfg, some b⟩

/-! ## Shutdown coordinator (`MultiAgentDialogWorld.shutdown`) -/

/-- What one participant's two shutdown entry points would do:
`shutdown(timeout=None)` (the bounded-wait form) and the plain
`shutdown()` fallback; `.error` models the call raising. -/
structure ShutdownBehavior where
  timeoutCall : Except String Unit
  plainCall : Except String Unit
  deriving Repr

/-- The inner `shutdown_agent` closure: try the bounded-wait call; on
any exception fall back to the plain call.  The fallback is not guarded,
so its exception propagates. -/
def shutdown_agent (b : ShutdownBehavior) : Except String Unit :=
  match b.timeoutCall with
  | .ok _ => .ok ()
  | .error _ => b.plainCall

/-- `MultiAgentDialogWorld.shutdown`: `Parallel(n_jobs=len(agents),
backend="threading")` submits one `shutdown_agent` task per participant;
every task runs, and when collecting results the first raised exception
propagates to the caller. -/
def worldShutdown (bs : List ShutdownBehavior) : Except String (List Unit) :=
  match (bs.map shutdown_agent).find?
      (fun r => match r with | .error _ => true | .ok _ => false) with
  | some (.error e) => .error e
  | _ => .ok ((bs.map shutdown_agent).map (fun _ => ()))

/-! ## Session-level utterance counters -/

/-- The `utterance_count` values attached over a whole session of
`rounds` rounds with `n` participants, flattened in speaking order:
round `r` (1-based) at ordinal `i` carries `r + i`
(`self.current_turns + index` in `parley`). -/
def sessionCounters (n rounds : Nat) : List Nat :=
  (List.range rounds).flatMap (fun r => (List.range n).map (fun i => (r + 1) + i))

/-! ## Trace observations -/

/-- Number of relay events in a trace whose acting participant is `a`. -/
def obsCount (a : Nat) (evs : List Event) : Nat :=
  evs.countP (fun e => match e with | .observe _ x => x == a | _ => false)

/-- Whether an event is an end-of-session notification. -/
def isDoneEvent : Event → Bool
  | .doneRemote _ => true
  | .doneLocal _ => true
  | _ => false

/-! ## Lemmas about the per-agent loop -/

theorem parleyLoop_acts_length (sendTD : Bool) (turns n : Nat) :
    ∀ (l : List (WAgent × Msg)) (idx : Nat),
      (parleyLoop sendTD turns n idx l).acts.length = l.length := by
  intro l
  induction l with
  | nil => intro idx; simp [parleyLoop]
  | cons hd tl ih => intro idx; simp [parleyLoop, ih]

theorem parleyLoop_byes (sendTD : Bool) (turns n : Nat) :
    ∀ (l : List (WAgent × Msg)) (idx : Nat),
      (parleyLoop sendTD turns n idx l).byes = l.map (fun p => saidBye p.2.text) := by
  intro l
  induction l with
  | nil => intro idx; simp [parleyLoop]
  | cons hd tl ih => intro idx; simp [parleyLoop, ih]

theorem parleyLoop_anyActDone (sendTD : Bool) (turns n : Nat) :
    ∀ (l : List (WAgent × Msg)) (idx : Nat),
      (parleyLoop sendTD turns n idx l).anyActDone = l.any (fun p => p.2.episodeDone) := by
  intro l
  induction l with
  | nil => intro idx; simp [parleyLoop]
  | cons hd tl ih => intro idx; simp [parleyLoop, ih]

theorem parleyLoop_acts_get (sendTD : Bool) (turns n : Nat) :
    ∀ (l : List (WAgent × Msg)) (idx i : Nat),
      (parleyLoop sendTD turns n idx l).acts[i]?
        = l[i]?.map (fun p => processAgent sendTD turns (idx + i) p.1 p.2) := by
  intro l
  induction l with
  | nil => intro idx i; simp [parleyLoop]
  | cons hd tl ih =>
    intro idx i
    cases i with
    | zero => simp [parleyLoop]
    | succ k =>
      have := ih (idx + 1) k
      simp only [parleyLoop, List.getElem?_cons_succ, this]
      have harith : idx + 1 + k = idx + (k + 1) := by omega
      rw [harith]

theorem length_filter_ne (j : Nat) :
    ∀ n : Nat, j < n → ((List.range n).filter (fun x => x != j)).length = n - 1 := by
  intro n
  induction n with
  | zero => intro h; omega
  | succ m ih =>
    intro h
    rw [List.range_succ, List.filter_append]
    by_cases hj : j = m
    · subst hj
      have hall : (List.range j).filter (fun x => x != j) = List.range j := by
        apply List.filter_eq_self.2
        intro x hx
        have : x < j := List.mem_range.1 hx
        simp only [bne_iff_ne, ne_eq]
        omega
      simp [hall]
    · have hjm : j < m := by omega
      have := ih hjm
      simp only [List.filter_cons, List.filter_nil]
      have hne : (m != j) = true := by simp only [bne_iff_ne, ne_eq]; omega
      rw [hne]
      simp only [if_true, List.length_append, this, List.length_cons, List.length_nil]
      omega

theorem obsCount_append (a : Nat) (l1 l2 : List Event) :
    obsCount a (l1 ++ l2) = obsCount a l1 + obsCount a l2 := by
  simp [obsCount, List.countP_append]

theorem obsCount_relayEvents (a n j : Nat) :
    obsCount a (relayEvents n j)
      = if j = a then ((List.range n).filter (fun x => x != a)).length else 0 := by
  unfold obsCount relayEvents
  rw [List.countP_map]
  by_cases h : j = a
  · subst h
    simp [Function.comp_def, List.countP_true]
  · have hb : (j == a) = false := by simp [h]
    simp [Function.comp_def, hb, List.countP_false, h]

theorem obsCount_agentBlock (a n j : Nat) (m : Msg) :
    obsCount a (agentBlock n j m) = obsCount a (relayEvents n j) := by
  simp [agentBlock, obsCount, List.countP_cons]

theorem obsCount_doneEvents (a : Nat) :
    ∀ (l : List WAgent) (idx : Nat), obsCount a (doneEvents idx l) = 0 := by
  intro l
  induction l with
  | nil => intro idx; simp [doneEvents, obsCount]
  | cons hd tl ih =>
    intro idx
    have h2 := ih (idx + 1)
    unfold obsCount at h2 ⊢
    cases hhd : hd.isRemote <;> simp [doneEvents, hhd, List.countP_cons, h2]

theorem obsCount_parleyLoop (sendTD : Bool) (turns n a : Nat) :
    ∀ (l : List (WAgent × Msg)) (idx : Nat),
      obsCount a (parleyLoop sendTD turns n idx l).events
        = if idx ≤ a ∧ a < idx + l.length
          then ((List.range n).filter (fun x => x != a)).length else 0 := by
  intro l
  induction l with
  | nil =>
    intro idx
    simp only [parleyLoop, obsCount, List.countP_nil, List.length_nil, Nat.add_zero]
    rw [if_neg (by omega)]
  | cons hd tl ih =>
    intro idx
    simp only [parleyLoop, obsCount_append, obsCount_agentBlock, obsCount_relayEvents,
      ih (idx + 1), List.length_cons]
    split_ifs <;> omega

theorem mem_relayEvents {u v n j : Nat} (h : Event.observe u v ∈ relayEvents n j) :
    v = j ∧ u ≠ j := by
  simp only [relayEvents, List.mem_map, List.mem_filter, List.mem_range] at h
  obtain ⟨x, ⟨_, hx⟩, heq⟩ := h
  cases heq
  exact ⟨rfl, by simpa [bne_iff_ne] using hx⟩

theorem self_observe_not_mem_parleyLoop (sendTD : Bool) (turns n : Nat) (r : Nat) :
    ∀ (l : List (WAgent × Msg)) (idx : Nat),
      Event.observe r r ∉ (parleyLoop sendTD turns n idx l).events := by
  intro l
  induction l with
  | nil => intro idx; simp [parleyLoop]
  | cons hd tl ih =>
    intro idx hmem
    simp only [parleyLoop, agentBlock, List.cons_append, List.mem_cons, List.mem_append] at hmem
    rcases hmem with h | h | h | h
    · cases h
    · cases h
    · exact (mem_relayEvents h).2 (mem_relayEvents h).1
    · exact ih (idx + 1) h

theorem self_observe_not_mem_doneEvents (r : Nat) :
    ∀ (l : List WAgent) (idx : Nat), Event.observe r r ∉ doneEvents idx l := by
  intro l
  induction l with
  | nil => intro idx; simp [doneEvents]
  | cons hd tl ih =>
    intro idx hmem
    simp only [doneEvents] at hmem
    rcases List.mem_cons.1 hmem with h | h
    · cases hhd : hd.isRemote <;> rw [hhd] at h <;> cases h
    · exact ih (idx + 1) h

theorem act_mem_parleyLoop (sendTD : Bool) (turns n : Nat) :
    ∀ (l : List (WAgent × Msg)) (idx j : Nat), idx ≤ j → j < idx + l.length →
      Event.act j ∈ (parleyLoop sendTD turns n idx l).events := by
  intro l
  induction l with
  | nil => intro idx j h1 h2; simp at h2; omega
  | cons hd tl ih =>
    intro idx j h1 h2
    simp only [parleyLoop, agentBlock, List.cons_append, List.mem_cons, List.mem_append]
    by_cases hj : j = idx
    · subst hj; left; rfl
    · right; right; right
      exact ih (idx + 1) j (by omega) (by simp at h2; omega)

theorem no_done_in_parleyLoop (sendTD : Bool) (turns n : Nat) :
    ∀ (l : List (WAgent × Msg)) (idx : Nat),
      ∀ e ∈ (parleyLoop sendTD turns n idx l).events, isDoneEvent e = false := by
  intro l
  induction l with
  | nil => intro idx e he; simp [parleyLoop] at he
  | cons hd tl ih =>
    intro idx e he
    simp only [parleyLoop, agentBlock, List.cons_append, List.mem_cons, List.mem_append] at he
    rcases he with h | h | h | h
    · subst h; rfl
    · subst h; rfl
    · simp only [relayEvents, List.mem_map] at h
      obtain ⟨x, _, hx⟩ := h
      subst hx; rfl
    · exact ih (idx + 1) e h

theorem doneEvents_has_done (l : List WAgent) (idx : Nat) (h : l ≠ []) :
    (doneEvents idx l).any isDoneEvent = true := by
  cases l with
  | nil => exact absurd rfl h
  | cons hd tl =>
    cases hhd : hd.isRemote <;> simp [doneEvents, hhd, isDoneEvent]

theorem obsCount_db_cons (a j : Nat) (t : String) (evs : List Event) :
    obsCount a (Event.db j t :: evs) = obsCount a evs := by
  simp [obsCount, List.countP_cons]

theorem act_split_parleyLoop (sendTD : Bool) (turns n : Nat) :
    ∀ (l : List (WAgent × Msg)) (idx a i : Nat), idx ≤ a → a < idx + l.length → i < a →
      ∃ pre post, (parleyLoop sendTD turns n idx l).events = pre ++ Event.act a :: post
        ∧ obsCount i post = 0 := by
  intro l
  induction l with
  | nil => intro idx a i h1 h2 h3; simp at h2; omega
  | cons hd tl ih =>
    intro idx a i h1 h2 h3
    obtain ⟨k, m⟩ := hd
    by_cases ha : a = idx
    · subst ha
      refine ⟨[], Event.db a m.text
          :: (relayEvents n a ++ (parleyLoop sendTD turns n (a + 1) tl).events), ?_, ?_⟩
      · simp [parleyLoop, agentBlock]
      · rw [obsCount_db_cons, obsCount_append, obsCount_relayEvents,
          obsCount_parleyLoop, if_neg (by omega), if_neg (by omega)]
    · obtain ⟨pre, post, hev, hcount⟩ :=
        ih (idx + 1) a i (by omega) (by simp at h2; omega) h3
      refine ⟨agentBlock n idx m ++ pre, post, ?_, hcount⟩
      simp [parleyLoop, hev, agentBlock]

/-! ## Lemmas about the goodbye pattern -/

theorem dropWhile_append_all {p : Char → Bool} :
    ∀ (w l : List Char), (∀ c ∈ w, p c = true) →
      List.dropWhile p (w ++ l) = List.dropWhile p l := by
  intro w
  induction w with
  | nil => intro l _; rfl
  | cons c cs ih =>
    intro l hall
    have hc : p c = true := hall c (List.mem_cons_self c cs)
    rw [List.cons_append, List.dropWhile_cons, if_pos hc]
    exact ih l (fun x hx => hall x (List.mem_cons_of_mem c hx))

theorem dropWhile_cons_neg {p : Char → Bool} {c : Char} {l : List Char} (h : p c = false) :
    List.dropWhile p (c :: l) = c :: l := by
  rw [List.dropWhile_cons, if_neg (by simp [h])]

theorem dropWhile_all_neg {p : Char → Bool} :
    ∀ l : List Char, (∀ c ∈ l, p c = false) → List.dropWhile p l = l := by
  intro l
  induction l with
  | nil => intro _; rfl
  | cons c cs ih =>
    intro hall
    rw [dropWhile_cons_neg (hall c (List.mem_cons_self c cs))]

theorem space_not_mark {c : Char} (h : pyIsSpace c = true) : isByeMark c = false := by
  simp only [pyIsSpace, Bool.or_eq_true, decide_eq_true_eq] at h
  rcases h with ((((h | h) | h) | h) | h) | h <;> subst h <;> decide

/-- The language of the goodbye regex with the punctuation class as a
parameter: optional leading whitespace, the word "bye" in any casing,
a run of punctuation characters, optional trailing whitespace, and
nothing else. -/
def byeShape (punct : Char → Bool) (s : String) : Prop :=
  ∃ w1 b y e p w2, s.data = w1 ++ b :: y :: e :: (p ++ w2)
    ∧ (∀ c ∈ w1, pyIsSpace c = true)
    ∧ charCaseEq b 'b' 'B' = true
    ∧ charCaseEq y 'y' 'Y' = true
    ∧ charCaseEq e 'e' 'E' = true
    ∧ (∀ c ∈ p, punct c = true)
    ∧ (∀ c ∈ w2, pyIsSpace c = true)

theorem saidBye_iff_byeShape (s : String) : saidBye s = true ↔ byeShape isByeMark s := by
  constructor
  · intro h
    unfold saidBye at h
    rcases hdw : s.data.dropWhile pyIsSpace with _ | ⟨b, tail1⟩
    · rw [hdw] at h; exact Bool.noConfusion h
    rcases tail1 with _ | ⟨y, tail2⟩
    · rw [hdw] at h; exact Bool.noConfusion h
    rcases tail2 with _ | ⟨e, rest⟩
    · rw [hdw] at h; exact Bool.noConfusion h
    rw [hdw] at h
    have h2 : (charCaseEq b 'b' 'B' && charCaseEq y 'y' 'Y' && charCaseEq e 'e' 'E' &&
        ((rest.dropWhile isByeMark).dropWhile pyIsSpace).isEmpty) = true := h
    simp only [Bool.and_eq_true, List.isEmpty_iff] at h2
    obtain ⟨⟨⟨hb, hy⟩, he⟩, hrest⟩ := h2
    refine ⟨s.data.takeWhile pyIsSpace, b, y, e,
        rest.takeWhile isByeMark, rest.dropWhile isByeMark, ?_, ?_, hb, hy, he, ?_, ?_⟩
    · conv_lhs => rw [← List.takeWhile_append_dropWhile pyIsSpace s.data]
      rw [hdw, List.takeWhile_append_dropWhile]
    · intro c hc; exact List.mem_takeWhile_imp hc
    · intro c hc; exact List.mem_takeWhile_imp hc
    · intro c hc
      exact (List.dropWhile_eq_nil_iff.1 hrest) c hc
  · rintro ⟨w1, b, y, e, p, w2, heq, hw1, hb, hy, he, hp, hw2⟩
    have hbspace : pyIsSpace b = false := by
      simp only [charCaseEq, Bool.or_eq_true, decide_eq_true_eq] at hb
      rcases hb with h | h <;> subst h <;> decide
    have hdw : s.data.dropWhile pyIsSpace = b :: y :: e :: (p ++ w2) := by
      rw [heq, dropWhile_append_all w1 _ hw1, dropWhile_cons_neg hbspace]
    have hw2mark : ∀ c ∈ w2, isByeMark c = false :=
      fun c hc => space_not_mark (hw2 c hc)
    unfold saidBye
    rw [hdw]
    simp only [hb, hy, he, Bool.true_and, List.isEmpty_iff]
    rw [dropWhile_append_all p _ hp, dropWhile_all_neg w2 hw2mark]
    exact List.dropWhile_eq_nil_iff.2 hw2

/-! ## Lemmas about session counters and `make_world` -/

theorem sessionCounters_succ (n r : Nat) :
    sessionCounters n (r + 1)
      = sessionCounters n r ++ (List.range n).map (fun i => (r + 1) + i) := by
  simp [sessionCounters, List.range_succ]

theorem sessionCounters_two (rounds : Nat) :
    List.Chain' (· ≤ ·) (sessionCounters 2 rounds)
      ∧ ∀ x ∈ (sessionCounters 2 rounds).getLast?, x = rounds + 1 := by
  induction rounds with
  | zero =>
    constructor
    · simp [sessionCounters]
    · intro x hx; simp [sessionCounters] at hx
  | succ r ih =>
    have hblock : (List.range 2).map (fun i => (r + 1) + i) = [r + 1, r + 2] := by
      simp [List.range_succ]
    rw [sessionCounters_succ, hblock]
    constructor
    · apply List.Chain'.append ih.1 (by simp)
      intro x hx y hy
      have hx2 := ih.2 x hx
      simp only [List.head?_cons, Option.mem_def, Option.some.injEq] at hy
      omega
    · intro x hx
      rw [List.getLast?_append_of_ne_nil _ (by simp)] at hx
      simp only [List.getLast?_cons_cons, List.getLast?_singleton, Option.mem_def,
        Option.some.injEq] at hx
      omega

theorem make_world_agent_count (cfg : Config) (humans : List String) (botName : String)
    (inbox : List Reply) (w : MadeWorld)
    (h : make_world cfg humans botName inbox = .ok w) :
    w.world.agents.length = 2 := by
  unfold make_world at h
  by_cases h1 : humans.length < 1 || humans.length > 2
  · rw [if_pos h1] at h; cases h
  rw [if_neg h1] at h
  by_cases h2 : humans.length == 2
  · rw [if_pos h2] at h
    cases h
    simp only [initWorld, List.length_map, List.length_reverse]
    exact Nat.eq_of_beq_eq_true (by simpa using h2)
  · rw [if_neg h2] at h
    rcases hh : handshakeUnderscore (freshBridge botName inbox) with _ | b
    · rw [hh] at h; cases h
    · rw [hh] at h
      cases h
      simp only [initWorld, List.length_cons, List.length_map]
      have hlen1 : humans.length = 1 := by
        simp only [Bool.or_eq_true, decide_eq_true_eq, not_or, not_lt] at h1
        have hne : humans.length ≠ 2 := by
          intro hc
          exact h2 (by simp [hc])
        omega
      omega

/-! ## Claim theorems -/

/-- C2 (counterexample): the claim says the goodbye predicate accepts
exactly the strings made of the word "bye" optionally followed by
punctuation with surrounding whitespace; but the source regex only
allows `.` and `!` after the word, so the punctuation-described string
"bye," (a comma is punctuation) is rejected by the code. -/
theorem goodbye_punctuation_counterexample :
    specGoodbye "bye," = true ∧ saidBye "bye," = false := by
  constructor <;> decide

/-- C2 (amended): the goodbye predicate accepts exactly the strings
consisting of the word "bye" (case-insensitive) optionally followed by
period or exclamation-mark characters, with optional surrounding
whitespace and nothing else; it accepts "bye", "Bye!", "bye.",
"  BYE  " and rejects "goodbye for now", "bye bye" and "bye,". -/
theorem goodbye_pattern_characterization :
    (∀ s, saidBye s = true ↔ byeShape isByeMark s)
    ∧ saidBye "bye" = true ∧ saidBye "Bye!" = true ∧ saidBye "bye." = true
    ∧ saidBye "  BYE  " = true
    ∧ saidBye "goodbye for now" = false ∧ saidBye "bye bye" = false
    ∧ saidBye "bye," = false :=
  ⟨saidBye_iff_byeShape, by decide, by decide, by decide, by decide,
   by decide, by decide, by decide⟩

/-- C3 (counterexample): when one participant's shutdown raises on both
the bounded-wait call and the unguarded fallback call, the coordinator
does not complete cleanly: the fallback's exception propagates out of
the parallel shutdown. -/
theorem shutdown_double_failure_counterexample :
    worldShutdown [⟨.ok (), .ok ()⟩,
        ⟨.error "timeout call raised", .error "fallback raised"⟩,
        ⟨.ok (), .ok ()⟩]
      = .error "fallback raised" := rfl

/-- C3 (amended): every participant's shutdown task runs; a failure of
the bounded-wait call alone is isolated by the plain fallback call, and
if every participant succeeds on at least one of the two calls the
coordinator completes without error; but a participant whose fallback
also raises propagates its error out of the coordinator. -/
theorem shutdown_isolation :
    (∀ bs : List ShutdownBehavior,
        (∀ b ∈ bs, b.timeoutCall = .ok () ∨ b.plainCall = .ok ()) →
        worldShutdown bs = .ok (bs.map (fun _ => ())))
    ∧ (∀ (bs : List ShutdownBehavior) (b : ShutdownBehavior) (e : String),
        b ∈ bs → shutdown_agent b = .error e →
        ∃ msg, worldShutdown bs = .error msg) := by
  constructor
  · intro bs hall
    have hok : ∀ b ∈ bs, shutdown_agent b = .ok () := by
      intro b hb
      rcases hall b hb with h | h
      · simp [shutdown_agent, h]
      · unfold shutdown_agent
        rcases ht : b.timeoutCall with e | u
        · exact h
        · rfl
    have hfind : (bs.map shutdown_agent).find?
        (fun r => match r with | .error _ => true | .ok _ => false) = none := by
      rw [List.find?_eq_none]
      intro x hx
      obtain ⟨b, hb, hxb⟩ := List.mem_map.1 hx
      rw [← hxb, hok b hb]
      simp
    unfold worldShutdown
    simp only [hfind]
    simp [List.map_map, Function.comp_def]
  · intro bs b e hb herr
    have hmem : (Except.error e : Except String Unit) ∈ bs.map shutdown_agent :=
      List.mem_map.2 ⟨b, hb, herr⟩
    have hsome : ((bs.map shutdown_agent).find?
        (fun r => match r with | .error _ => true | .ok _ => false)).isSome := by
      rw [List.find?_isSome]
      exact ⟨.error e, hmem, rfl⟩
    rcases hfind : (bs.map shutdown_agent).find?
        (fun r => match r with | .error _ => true | .ok _ => false) with _ | r
    · rw [hfind] at hsome; cases hsome
    · have hr := List.find?_some hfind
      rcases r with msg | u
      · refine ⟨msg, ?_⟩
        unfold worldShutdown
        simp only [hfind]
      · cases hr

/-- C3 (witness): a participant failing only the bounded-wait call is
isolated, and a participant failing both calls yields a propagated
error. -/
theorem shutdown_isolation_witness :
    worldShutdown [⟨.error "x", .ok ()⟩] = .ok [()]
    ∧ ∃ msg, worldShutdown [⟨.error "a", .error "b"⟩] = .error msg :=
  ⟨shutdown_isolation.1 [⟨.error "x", .ok ()⟩]
      (by intro b hb; rw [List.mem_singleton] at hb; subst hb; right; rfl),
   shutdown_isolation.2 [⟨.error "a", .error "b"⟩] ⟨.error "a", .error "b"⟩ "b"
      (List.mem_singleton.2 rfl) rfl⟩

/-- C4 (counterexample): in the underscore variant's `make_world`, the
handshake is `observe dummy; act; observe begin` with no second `act`:
during session construction only one sentinel is actually written to the
wire and only one reply is discarded; the stored "begin" is then sent by
the remote participant's first act inside the conversation loop, which
returns the second message received from the server (the reply to the
"begin" sentinel), not the third. -/
theorem underscore_handshake_counterexample :
    handshakeUnderscore (freshBridge "RemoteAgent" [⟨"reply1"⟩, ⟨"reply2"⟩, ⟨"reply3"⟩])
        = some ⟨"RemoteAgent", some "begin", [⟨"reply2"⟩, ⟨"reply3"⟩], [⟨"User", "dummy"⟩]⟩
    ∧ remote_act ⟨"RemoteAgent", some "begin", [⟨"reply2"⟩, ⟨"reply3"⟩], [⟨"User", "dummy"⟩]⟩
        = some (⟨some "Bot", "RemoteAgent", "reply2", false⟩,
            ⟨"RemoteAgent", some "begin", [⟨"reply3"⟩],
             [⟨"User", "dummy"⟩, ⟨"User", "begin"⟩]⟩) :=
  ⟨rfl, rfl⟩

/-- C4 (amended): in the hyphen variant the handshake performs both
sentinel observe/act pairs ({"text": "dummy"} then {"text": "begin"}),
discarding both replies, so a subsequent real observe("hello") + act
returns the third message received; in the underscore variant the
construction-time handshake sends only the "dummy" sentinel and
discards only its reply — the "begin" sentinel is sent by the bot's
first act in the conversation loop, whose return value is the second
received message. -/
theorem handshake_reply_accounting (botId : String) (r1 r2 r3 : Reply) (rest : List Reply) :
    (handshakeHyphen (freshBridge botId (r1 :: r2 :: r3 :: rest))
        = some ⟨botId, some "begin", r3 :: rest, [⟨"User", "dummy"⟩, ⟨"User", "begin"⟩]⟩
      ∧ remote_act (remote_observe
            ⟨botId, some "begin", r3 :: rest, [⟨"User", "dummy"⟩, ⟨"User", "begin"⟩]⟩ "hello")
          = some (⟨some "Bot", botId, r3.text, false⟩,
              ⟨botId, some "hello", rest,
               [⟨"User", "dummy"⟩, ⟨"User", "begin"⟩, ⟨"User", "hello"⟩]⟩))
    ∧ (handshakeUnderscore (freshBridge botId (r1 :: r2 :: r3 :: rest))
        = some ⟨botId, some "begin", r2 :: r3 :: rest, [⟨"User", "dummy"⟩]⟩
      ∧ remote_act ⟨botId, some "begin", r2 :: r3 :: rest, [⟨"User", "dummy"⟩]⟩
          = some (⟨some "Bot", botId, r2.text, false⟩,
              ⟨botId, some "begin", r3 :: rest, [⟨"User", "dummy"⟩, ⟨"User", "begin"⟩]⟩)) :=
  ⟨⟨rfl, rfl⟩, ⟨rfl, rfl⟩⟩

/-- C5: `RemoteAgent.act` returns the placeholder record without
touching the socket when no observation has been stored; otherwise it
sends the stored observation's text and reads one reply; and every
record it returns carries the bridge's own identity and
`episode_done = false`. -/
theorem remote_act_contract (b : BridgeState) :
    (b.observation = none →
      remote_act b = some (⟨none, b.botId, "Nothing to reply to yet", false⟩, b))
    ∧ (∀ t r rest, b.observation = some t → b.inbox = r :: rest →
      remote_act b = some (⟨some "Bot", b.botId, r.text, false⟩,
        { b with inbox := rest, sent := b.sent ++ [⟨"User", t⟩] }))
    ∧ (∀ rec b2, remote_act b = some (rec, b2) →
        rec.id = b.botId ∧ rec.episodeDone = false) := by
  refine ⟨?_, ?_, ?_⟩
  · intro h; simp [remote_act, h]
  · intro t r rest h1 h2; simp [remote_act, h1, h2]
  · intro rec b2 h
    unfold remote_act at h
    rcases hobs : b.observation with _ | t <;> rw [hobs] at h
    · cases h; exact ⟨rfl, rfl⟩
    · rcases hin : b.inbox with _ | ⟨r, rest⟩ <;> rw [hin] at h
      · cases h
      · cases h; exact ⟨rfl, rfl⟩

/-- C5 (witness): the contract evaluated on a bridge with no stored
observation, and on one with a stored observation and a pending
reply. -/
theorem remote_act_contract_witness :
    remote_act (freshBridge "Bot1" [])
        = some (⟨none, "Bot1", "Nothing to reply to yet", false⟩, freshBridge "Bot1" [])
    ∧ remote_act ⟨"Bot1", some "hi", [⟨"yo"⟩], []⟩
        = some (⟨some "Bot", "Bot1", "yo", false⟩, ⟨"Bot1", some "hi", [], [⟨"User", "hi"⟩]⟩)
    ∧ TurnRecord.id ⟨none, "Bot1", "Nothing to reply to yet", false⟩ = "Bot1"
      ∧ TurnRecord.episodeDone ⟨none, "Bot1", "Nothing to reply to yet", false⟩ = false :=
  ⟨(remote_act_contract (freshBridge "Bot1" [])).1 rfl,
   (remote_act_contract ⟨"Bot1", some "hi", [⟨"yo"⟩], []⟩).2.1 "hi" ⟨"yo"⟩ [] rfl rfl,
   (remote_act_contract (freshBridge "Bot1" [])).2.2
      ⟨none, "Bot1", "Nothing to reply to yet", false⟩ (freshBridge "Bot1" [])
      ((remote_act_contract (freshBridge "Bot1" [])).1 rfl)⟩

/-- C10: `make_world` (underscore variant) raises for any participant
list whose length is neither one nor two, before any session state —
world, database rows or remote handshake — is created. -/
theorem make_world_bad_count (cfg : Config) (humans : List String) (botName : String)
    (inbox : List Reply) (h1 : humans.length ≠ 1) (h2 : humans.length ≠ 2) :
    make_world cfg humans botName inbox
      = .error "There should only ever be one or two agents in this list." := by
  have hc : (humans.length < 1 || humans.length > 2) = true := by
    simp only [Bool.or_eq_true, decide_eq_true_eq]
    omega
  unfold make_world
  rw [if_pos hc]

/-- C10 (witness): three agents are refused. -/
theorem make_world_bad_count_witness :
    make_world ⟨4, 2, false⟩ ["w1", "w2", "w3"] "bot" []
      = .error "There should only ever be one or two agents in this list." :=
  make_world_bad_count ⟨4, 2, false⟩ ["w1", "w2", "w3"] "bot" [] (by decide) (by decide)

/-- A two-human session with `max_turns = 4`, `min_turns = 2`, task
data disabled — the §8 end-to-end setup. -/
def demoWorld : WorldState :=
  initWorld [WAgent.human "workerA", WAgent.human "workerB"] ⟨4, 2, false⟩

/-- A round in which both participants say "bye". -/
def demoByeReplies : List Msg :=
  [⟨"Chat Agent 1", "bye", false, none⟩, ⟨"Chat Agent 2", "bye", false, none⟩]

/-- A round in which the first participant's act carries
`episode_done = True` mid-round and nobody says "bye". -/
def demoMidReplies : List Msg :=
  [⟨"Chat Agent 1", "hi", true, none⟩, ⟨"Chat Agent 2", "hello", false, none⟩]

/-- The same session with task-data enrichment enabled. -/
def demoTaskWorld : WorldState :=
  initWorld [WAgent.human "workerA", WAgent.human "workerB"] ⟨4, 2, true⟩

/-- C1: the end-of-round check marks the session done exactly when the
turn count has reached the maximum OR (every participant said bye AND
the turn count has reached the minimum) — the OR binding loosest — so
reaching the maximum alone terminates, and an all-bye round below both
limits does not; the final flag also absorbs mid-round episode-done
acts, and the end-of-session notifications fire exactly with the
end-of-round condition. -/
theorem end_of_round_termination (st : WorldState) (replies : List Msg) :
    ((parley st replies).1.episodeDone
        = (st.episodeDone
            || (st.agents.zip replies).any (fun p => p.2.episodeDone)
            || endOfRoundCond (st.currentTurns + 1) st.maxTurns st.minTurns
                ((st.agents.zip replies).map (fun p => saidBye p.2.text))))
    ∧ (st.agents ≠ [] →
        (parley st replies).2.any isDoneEvent
          = endOfRoundCond (st.currentTurns + 1) st.maxTurns st.minTurns
              ((st.agents.zip replies).map (fun p => saidBye p.2.text)))
    ∧ (∀ turns maxT minT byes,
        (endOfRoundCond turns maxT minT byes = true
            ↔ (maxT ≤ turns ∨ (byes.all id = true ∧ minT ≤ turns)))
        ∧ (maxT ≤ turns → endOfRoundCond turns maxT minT byes = true)
        ∧ (turns < maxT → turns < minT → endOfRoundCond turns maxT minT byes = false)) := by
  refine ⟨?_, ?_, ?_⟩
  · simp only [parley, parleyLoop_anyActDone, parleyLoop_byes]
  · intro hne
    simp only [parley, parleyLoop_byes]
    rw [List.any_append]
    have hno : (parleyLoop st.sendTaskData (st.currentTurns + 1) st.agents.length 0
        (st.agents.zip replies)).events.any isDoneEvent = false := by
      rw [List.any_eq_false]
      intro e he
      simp [no_done_in_parleyLoop _ _ _ _ _ e he]
    rw [hno]
    cases hc : endOfRoundCond (st.currentTurns + 1) st.maxTurns st.minTurns
        ((st.agents.zip replies).map (fun p => saidBye p.2.text))
    · simp
    · simp [doneEvents_has_done st.agents 0 hne]
  · intro turns maxT minT byes
    refine ⟨?_, ?_, ?_⟩
    · simp [endOfRoundCond, Bool.or_eq_true, Bool.and_eq_true, decide_eq_true_eq]
    · intro h; simp [endOfRoundCond, h]
    · intro h1 h2
      have d1 : decide (maxT ≤ turns) = false := by simp; omega
      have d2 : decide (minT ≤ turns) = false := by simp; omega
      simp [endOfRoundCond, d1, d2]

/-- C1 (witness): an all-bye round below the minimum turn count does
not fire the end-of-round condition, and the notification trace of the
demo session agrees with the condition. -/
theorem end_of_round_termination_witness :
    endOfRoundCond 1 4 2 [true, true] = false
    ∧ (parley demoWorld demoByeReplies).2.any isDoneEvent
        = endOfRoundCond (demoWorld.currentTurns + 1) demoWorld.maxTurns demoWorld.minTurns
            ((demoWorld.agents.zip demoByeReplies).map (fun p => saidBye p.2.text)) :=
  ⟨((end_of_round_termination demoWorld demoByeReplies).2.2 1 4 2 [true, true]).2.2
      (by decide) (by decide),
   (end_of_round_termination demoWorld demoByeReplies).2.1 (by decide)⟩

/-- C6: with task data enabled, the act of the local participant at
ordinal `i` in the round with turn count `r` is enriched with utterance
counter `r + i`; counters are strictly increasing across ordinals
within a round; every constructed session has exactly two participants,
and over such a session the flattened counter sequence is monotonically
(weakly) increasing. -/
theorem utterance_counter_enrichment (st : WorldState) (replies : List Msg) :
    (st.sendTaskData = true →
      ∀ (i : Nat) (a : String) (m : Msg),
        (st.agents.zip replies)[i]? = some (WAgent.human a, m) →
        ((parley st replies).1.acts)[i]?
          = some (some { m with taskData := some ⟨chatAgentId i, st.currentTurns + 1,
              (st.currentTurns + 1) + i⟩ }))
    ∧ (st.sendTaskData = true →
      ∀ (i j : Nat) (a1 : String) (m1 : Msg) (a2 : String) (m2 : Msg), i < j →
        (st.agents.zip replies)[i]? = some (WAgent.human a1, m1) →
        (st.agents.zip replies)[j]? = some (WAgent.human a2, m2) →
        ∃ c1 c2, ((parley st replies).1.acts)[i]?
            = some (some { m1 with taskData := some ⟨chatAgentId i, st.currentTurns + 1, c1⟩ })
          ∧ ((parley st replies).1.acts)[j]?
            = some (some { m2 with taskData := some ⟨chatAgentId j, st.currentTurns + 1, c2⟩ })
          ∧ c1 < c2)
    ∧ (∀ cfg humans botName inbox w, make_world cfg humans botName inbox = .ok w →
        w.world.agents.length = 2)
    ∧ (∀ rounds, List.Chain' (· ≤ ·) (sessionCounters 2 rounds)) := by
  have key : st.sendTaskData = true →
      ∀ (i : Nat) (a : String) (m : Msg),
        (st.agents.zip replies)[i]? = some (WAgent.human a, m) →
        ((parley st replies).1.acts)[i]?
          = some (some { m with taskData := some ⟨chatAgentId i, st.currentTurns + 1,
              (st.currentTurns + 1) + i⟩ }) := by
    intro hsend i a m hz
    simp [parley, List.getElem?_map, parleyLoop_acts_get, hz, processAgent, hsend]
  refine ⟨key, ?_, ?_, ?_⟩
  · intro hsend i j a1 m1 a2 m2 hij h1 h2
    exact ⟨(st.currentTurns + 1) + i, (st.currentTurns + 1) + j,
      key hsend i a1 m1 h1, key hsend j a2 m2 h2, by omega⟩
  · intro cfg humans botName inbox w h
    exact make_world_agent_count cfg humans botName inbox w h
  · intro rounds
    exact (sessionCounters_two rounds).1

/-- C6 (witness): in round 1 of the task-data session, participant 0's
act carries counter 1 = 1 + 0, and the two-participant session counter
sequence over three rounds is monotone. -/
theorem utterance_counter_enrichment_witness :
    ((parley demoTaskWorld demoMidReplies).1.acts)[0]?
      = some (some ⟨"Chat Agent 1", "hi", true, some ⟨chatAgentId 0, 1, 1⟩⟩)
    ∧ List.Chain' (· ≤ ·) (sessionCounters 2 3) :=
  ⟨(utterance_counter_enrichment demoTaskWorld demoMidReplies).1 rfl 0 "workerA"
      ⟨"Chat Agent 1", "hi", true, none⟩ (by decide),
   (utterance_counter_enrichment demoTaskWorld demoMidReplies).2.2.2 3⟩

/-- C7: in a round with N participants, each acting participant's act
is relayed to exactly N−1 receivers, never to itself, and all its
relays occur before the next participant's act event. -/
theorem relay_fanout (st : WorldState) (replies : List Msg)
    (hlen : replies.length = st.agents.length) :
    ∀ i, i < st.agents.length →
      obsCount i (parley st replies).2 = st.agents.length - 1
      ∧ Event.observe i i ∉ (parley st replies).2
      ∧ (i + 1 < st.agents.length →
          ∃ pre post, (parley st replies).2 = pre ++ Event.act (i + 1) :: post
            ∧ obsCount i pre = st.agents.length - 1 ∧ obsCount i post = 0) := by
  intro i hi
  have hzlen : (st.agents.zip replies).length = st.agents.length := by
    rw [List.length_zip, hlen, Nat.min_self]
  have hitecount : obsCount i (if endOfRoundCond (st.currentTurns + 1) st.maxTurns st.minTurns
      (parleyLoop st.sendTaskData (st.currentTurns + 1) st.agents.length 0
        (st.agents.zip replies)).byes then doneEvents 0 st.agents else []) = 0 := by
    split
    · exact obsCount_doneEvents i st.agents 0
    · simp [obsCount]
  have htot : obsCount i (parleyLoop st.sendTaskData (st.currentTurns + 1) st.agents.length 0
      (st.agents.zip replies)).events = st.agents.length - 1 := by
    rw [obsCount_parleyLoop, if_pos (by omega), length_filter_ne i st.agents.length hi]
  refine ⟨?_, ?_, ?_⟩
  · simp only [parley]
    rw [obsCount_append, htot, hitecount]
    omega
  · simp only [parley, List.mem_append]
    rintro (h | h)
    · exact self_observe_not_mem_parleyLoop _ _ _ i _ 0 h
    · revert h
      split
      · exact self_observe_not_mem_doneEvents i st.agents 0
      · simp
  · intro hnext
    obtain ⟨pre, post, hev, hcount⟩ := act_split_parleyLoop st.sendTaskData
        (st.currentTurns + 1) st.agents.length (st.agents.zip replies) 0 (i + 1) i
        (by omega) (by omega) (by omega)
    have hpre : obsCount i pre = st.agents.length - 1 := by
      rw [hev, obsCount_append] at htot
      have hact : obsCount i (Event.act (i + 1) :: post) = obsCount i post := by
        simp [obsCount, List.countP_cons]
      rw [hact, hcount] at htot
      omega
    refine ⟨pre, post ++ (if endOfRoundCond (st.currentTurns + 1) st.maxTurns st.minTurns
        (parleyLoop st.sendTaskData (st.currentTurns + 1) st.agents.length 0
          (st.agents.zip replies)).byes then doneEvents 0 st.agents else []), ?_, hpre, ?_⟩
    · simp only [parley]
      rw [hev]
      simp [List.append_assoc]
    · rw [obsCount_append, hcount, hitecount]

/-- C7 (witness): in the demo round, participant 0's act is relayed to
exactly one receiver and never to itself. -/
theorem relay_fanout_witness :
    obsCount 0 (parley demoWorld demoByeReplies).2 = 1
    ∧ Event.observe 0 0 ∉ (parley demoWorld demoByeReplies).2 :=
  ⟨(relay_fanout demoWorld demoByeReplies (by decide) 0 (by decide)).1,
   (relay_fanout demoWorld demoByeReplies (by decide) 0 (by decide)).2.1⟩

/-- C8: the session-state invariants hold at initialization and are
preserved by `parley`: the last-acts buffer has exactly one slot per
participant (initialized to the `None` sentinel), the turn count never
decreases, and a set episode-done flag is never cleared. -/
theorem session_state_invariants :
    (∀ (agents : List WAgent) (cfg : Config),
        (initWorld agents cfg).acts = List.replicate agents.length none
        ∧ (initWorld agents cfg).acts.length = agents.length
        ∧ (initWorld agents cfg).episodeDone = false
        ∧ (initWorld agents cfg).currentTurns = 0)
    ∧ (∀ (st : WorldState) (replies : List Msg), replies.length = st.agents.length →
        (parley st replies).1.acts.length = st.agents.length
        ∧ (parley st replies).1.agents = st.agents)
    ∧ (∀ (st : WorldState) (replies : List Msg),
        st.currentTurns ≤ (parley st replies).1.currentTurns)
    ∧ (∀ (st : WorldState) (replies : List Msg),
        st.episodeDone = true → (parley st replies).1.episodeDone = true) := by
  refine ⟨?_, ?_, ?_, ?_⟩
  · intro agents cfg
    exact ⟨rfl, by simp [initWorld], rfl, rfl⟩
  · intro st replies hlen
    constructor
    · simp only [parley]
      rw [List.length_map, parleyLoop_acts_length, List.length_zip, hlen, Nat.min_self]
    · simp [parley]
  · intro st replies
    simp only [parley]
    omega
  · intro st replies h
    simp [parley, h]

/-- C8 (witness): the invariants evaluated on the demo session. -/
theorem session_state_invariants_witness :
    (parley demoWorld demoByeReplies).1.acts.length = 2
    ∧ (parley { demoWorld with episodeDone := true } demoByeReplies).1.episodeDone = true :=
  ⟨(session_state_invariants.2.1 demoWorld demoByeReplies (by decide)).1,
   session_state_invariants.2.2.2 { demoWorld with episodeDone := true } demoByeReplies rfl⟩

/-- C9: when a mid-round act carries `episode_done = True` while the
end-of-round condition does not hold, the session's done flag is set,
yet the round still completes (every participant acts and every act is
fully relayed), and no end-of-session notification — neither the
`[DONE]` signal nor the completion-code message — is sent in that
round. -/
theorem mid_round_done_continues (st : WorldState) (replies : List Msg)
    (hlen : replies.length = st.agents.length)
    (hdone : (st.agents.zip replies).any (fun p => p.2.episodeDone) = true)
    (hcond : endOfRoundCond (st.currentTurns + 1) st.maxTurns st.minTurns
        ((st.agents.zip replies).map (fun p => saidBye p.2.text)) = false) :
    (parley st replies).1.episodeDone = true
    ∧ (∀ i, i < st.agents.length → Event.act i ∈ (parley st replies).2)
    ∧ (∀ i, i < st.agents.length → obsCount i (parley st replies).2 = st.agents.length - 1)
    ∧ (∀ e ∈ (parley st replies).2, isDoneEvent e = false) := by
  have hzlen : (st.agents.zip replies).length = st.agents.length := by
    rw [List.length_zip, hlen, Nat.min_self]
  refine ⟨?_, ?_, ?_, ?_⟩
  · simp [parley, parleyLoop_anyActDone, hdone]
  · intro i hi
    simp only [parley, List.mem_append]
    left
    exact act_mem_parleyLoop _ _ _ _ 0 i (Nat.zero_le i) (by omega)
  · intro i hi
    simp only [parley]
    rw [obsCount_append, obsCount_parleyLoop, if_pos (by omega),
      length_filter_ne i st.agents.length hi]
    have h0 : obsCount i (if endOfRoundCond (st.currentTurns + 1) st.maxTurns st.minTurns
        (parleyLoop st.sendTaskData (st.currentTurns + 1) st.agents.length 0
          (st.agents.zip replies)).byes then doneEvents 0 st.agents else []) = 0 := by
      split
      · exact obsCount_doneEvents i st.agents 0
      · simp [obsCount]
    rw [h0]
    omega
  · intro e he
    simp only [parley, parleyLoop_byes, hcond, Bool.false_eq_true, if_false,
      List.append_nil] at he
    exact no_done_in_parleyLoop _ _ _ _ _ e he

/-- C9 (witness): the demo mid-round-done round sets the flag, the
second participant still acts and relays, and there is a concrete trace
with the stated relay count. -/
theorem mid_round_done_continues_witness :
    (parley demoWorld demoMidReplies).1.episodeDone = true
    ∧ Event.act 1 ∈ (parley demoWorld demoMidReplies).2
    ∧ obsCount 1 (parley demoWorld demoMidReplies).2 = 1 :=
  ⟨(mid_round_done_continues demoWorld demoMidReplies (by decide) (by decide) (by decide)).1,
   (mid_round_done_continues demoWorld demoMidReplies (by decide) (by decide)
      (by decide)).2.1 1 (by decide),
   (mid_round_done_continues demoWorld demoMidReplies (by decide) (by decide)
      (by decide)).2.2.1 1 (by decide)⟩

end Mephisto
